import Mathlib

/-!
Verification of the core conversion logic of `convert_eprime/convert.py`.

The embedding works over the list of sanitized text lines (the value of
`filtered_data` in `_text_to_df`): byte decoding and `remove_unicode`
(from `utils.py`, not part of the core) are upstream of everything the
claims talk about, so a raw log input is represented as a `List String`.

Python exceptions are modelled with an `Except PyErr` result; `PyErr`
distinguishes the exception classes that the relevant code paths can
raise (`IndexError` from indexing an empty list, `ValueError` from
`str.index` on a missing separator, `KeyError` from pandas column
selection, `TypeError` from `DataFrame.rename` with no mapper, and
`AttributeError` from calling `.keys()` on `None`).
-/

namespace ConvertEprime

/-- Python exception classes reachable from the modelled code paths. -/
inductive PyErr where
  | indexError
  | valueError
  | keyError
  | typeError
  | attributeError
  deriving DecidableEq, Repr

/-- A pandas `DataFrame` of string cells: an ordered list of column names
and row-major cells, where `none` models `NaN`. -/
structure Df where
  columns : List String
  rows : List (List (Option String))
  deriving DecidableEq, Repr

/-- `df.shape[0]`: the number of rows. -/
def Df.nRows (df : Df) : Nat := df.rows.length

/-- The column at positional index `k`, as the list of its cells in row
order (`df[headers[k]]` viewed positionally). -/
def Df.col (df : Df) (k : Nat) : List (Option String) :=
  df.rows.map (fun r => r.getD k none)

/-- Python `str.lstrip()`: drop leading whitespace. -/
def lstrip (s : String) : String := ⟨s.data.dropWhile Char.isWhitespace⟩

/-- Split a line at its first colon, as `line[:idx]` / `line[idx+1:]`
around `idx = line.index(':')`; `none` when the line has no colon
(where `str.index` raises `ValueError`). -/
def splitFirstColon (s : String) : Option (String × String) :=
  match s.data.findIdx? (fun c => c == ':') with
  | none => none
  | some i => some (⟨s.data.take i⟩, ⟨s.data.drop (i + 1)⟩)

/-- The key of a `key:value` line: the text before the first colon. -/
def keyOf (s : String) : Option String := (splitFirstColon s).map Prod.fst

/-- The block-start sentinel line. -/
def startMarker : String := "*** LogFrame Start ***"

/-- The block-end sentinel line. -/
def endMarker : String := "*** LogFrame End ***"

/-- `[i for i, row in enumerate(lines) if row == m]`. -/
def markerIdx (m : String) (lines : List String) : List Nat :=
  (lines.enum.filter (fun p => p.2 == m)).map Prod.fst

/-- The marker sanity check of `_text_to_df` (lines 203-204):
`if len(start_index) != len(end_index) or start_index[0] >= end_index[0]`.
Returns whether the warning is printed.  When the lengths are equal the
second disjunct is evaluated, so when both lists are empty the indexing
`start_index[0]` raises an `IndexError`. -/
def markerWarn (starts ends : List Nat) : Except PyErr Bool :=
  if starts.length ≠ ends.length then
    .ok true
  else
    match starts, ends with
    | s :: _, e :: _ => .ok (decide (e ≤ s))
    | _, _ => .error .indexError

/-- `filtered_data[start_index[i]+1:end_index[i]]` (Python slice). -/
def blockLines (lines : List String) (s e : Nat) : List String :=
  (lines.drop (s + 1)).take (e - (s + 1))

/-- The usable blocks: contents between the `i`-th start marker and the
`i`-th end marker, for `i < min(len(start_index), len(end_index))`. -/
def blocksOf (lines : List String) : List (List String) :=
  ((markerIdx startMarker lines).zip (markerIdx endMarker lines)).map
    (fun p => blockLines lines p.1 p.2)

/-- Sequential effectful map that stops at the first error, as a Python
`for` loop over the list would. -/
def mapExcept (f : α → Except PyErr β) : List α → Except PyErr (List β)
  | [] => .ok []
  | a :: l =>
    match f a with
    | .error e => .error e
    | .ok b =>
      match mapExcept f l with
      | .error e => .error e
      | .ok bs => .ok (b :: bs)

/-- Sequential effectful fold that stops at the first error. -/
def foldExcept (f : β → α → Except PyErr β) (init : β) : List α → Except PyErr β
  | [] => .ok init
  | a :: l =>
    match f init a with
    | .error e => .error e
    | .ok b => foldExcept f b l

/-- `col_val[:col_val.index(':')]`: the key of a block line, raising
`ValueError` when the line has no colon. -/
def parseKey (s : String) : Except PyErr String :=
  match splitFirstColon s with
  | none => .error .valueError
  | some (k, _) => .ok k

/-- The header-collection loop (lines 208-215): every key of every line
of every usable block, in scan order. -/
def collectKeys (blks : List (List String)) : Except PyErr (List String) :=
  mapExcept parseKey blks.flatten

/-- Core of `OrderedDict.fromkeys`: keep each key's first occurrence,
dropping any key already seen. -/
def dedupFirstAux (seen : List String) : List String → List String
  | [] => []
  | x :: xs =>
      if x ∈ seen then dedupFirstAux seen xs
      else x :: dedupFirstAux (seen ++ [x]) xs

/-- `OrderedDict.fromkeys`: drop duplicates, keeping the first
occurrence of each key and the first-seen order. -/
def dedupFirst (l : List String) : List String := dedupFirstAux [] l

/-- One iteration of the cell-filling loop (lines 225-229): split the
line at its first colon and write the left-stripped value into every
header position whose header equals the key. -/
def applyLine (headers : List String) (row : List (Option String)) (line : String) :
    Except PyErr (List (Option String)) :=
  match splitFirstColon line with
  | none => .error .valueError
  | some (k, v) =>
      .ok ((headers.zip row).map (fun p => if p.1 = k then some (lstrip v) else p.2))

/-- Materialize one block as a table row: start from a row of `NaN`s and
apply every `key:value` line of the block in order. -/
def materializeRow (headers : List String) (blk : List String) :
    Except PyErr (List (Option String)) :=
  foldExcept (applyLine headers) (headers.map (fun _ => none)) blk

/-- The indices (via `np.where(col == col)`) and values of the non-null
cells of a column, in row order. -/
def nonNullIdx : List (Option String) → List (Nat × String)
  | [] => []
  | none :: rest => (nonNullIdx rest).map (fun p => (p.1 + 1, p.2))
  | some v :: rest => (0, v) :: (nonNullIdx rest).map (fun p => (p.1 + 1, p.2))

/-- The backfill rule of `_text_to_df` (lines 235-239) on one column:
if exactly one cell is non-null and its row index is `0`,
`df.shape[0]-1` or `df.shape[0]-2`, broadcast that value to the whole
column, else leave the column unchanged. -/
def backfillCol (col : List (Option String)) : List (Option String) :=
  match nonNullIdx col with
  | [(i, v)] =>
      if i = 0 ∨ i + 1 = col.length ∨ i + 2 = col.length then
        col.map (fun _ => some v)
      else col
  | _ => col

/-- The backfill pass applied to every column of the table. -/
def backfill (df : Df) : Df :=
  ⟨df.columns,
    (List.range df.nRows).map (fun i =>
      (List.range df.columns.length).map (fun k =>
        (backfillCol (df.col k)).getD i none))⟩

/-- `_text_to_df` over the sanitized lines: marker scan and sanity
check, block extraction, header collection and dedup, row
materialization, and the backfill pass. -/
def _text_to_df (lines : List String) : Except PyErr Df :=
  match markerWarn (markerIdx startMarker lines) (markerIdx endMarker lines) with
  | .error e => .error e
  | .ok _ =>
    match collectKeys (blocksOf lines) with
    | .error e => .error e
    | .ok ks =>
      match mapExcept (materializeRow (dedupFirst ks)) (blocksOf lines) with
      | .error e => .error e
      | .ok rows => .ok (backfill ⟨dedupFirst ks, rows⟩)

instance {ε α : Type} [DecidableEq ε] [DecidableEq α] : DecidableEq (Except ε α) :=
  fun a b =>
    match a, b with
    | .error e, .error f =>
        if h : e = f then isTrue (by rw [h]) else isFalse (by simp [h])
    | .ok x, .ok y =>
        if h : x = y then isTrue (by rw [h]) else isFalse (by simp [h])
    | .error _, .ok _ => isFalse (fun h => Except.noConfusion h)
    | .ok _, .error _ => isFalse (fun h => Except.noConfusion h)

/-! ### Basic lemmas about the embedding -/

theorem mapExcept_ok_length {f : α → Except PyErr β} :
    ∀ {l : List α} {l' : List β}, mapExcept f l = .ok l' → l'.length = l.length := by
  intro l
  induction l with
  | nil => intro l' h; simp [mapExcept] at h; simp [← h]
  | cons a t ih =>
    intro l' h
    simp only [mapExcept] at h
    cases hf : f a with
    | error e => rw [hf] at h; exact absurd h (by simp)
    | ok b =>
      rw [hf] at h
      cases ht : mapExcept f t with
      | error e => rw [ht] at h; exact absurd h (by simp)
      | ok bs =>
        rw [ht] at h
        cases h
        simp [ih ht]

theorem getD_map_range {γ : Type} (f : Nat → γ) {n i : Nat} (d : γ) (h : i < n) :
    ((List.range n).map f).getD i d = f i := by
  rw [List.getD_eq_getElem?_getD, List.getElem?_map, List.getElem?_range h]
  rfl

theorem getD_range_map_self {γ : Type} (l : List γ) (d : γ) :
    (List.range l.length).map (fun i => l.getD i d) = l := by
  induction l with
  | nil => rfl
  | cons a t ih =>
    simp only [List.length_cons, List.range_succ_eq_map, List.map_cons, List.map_map]
    refine congrArg₂ _ rfl ?_
    calc (List.range t.length).map ((fun i => (a :: t).getD i d) ∘ Nat.succ)
        = (List.range t.length).map (fun i => t.getD i d) := rfl
      _ = t := ih

theorem backfillCol_length (col : List (Option String)) :
    (backfillCol col).length = col.length := by
  unfold backfillCol
  split
  · split <;> simp
  · rfl

theorem Df.col_length (df : Df) (k : Nat) : (df.col k).length = df.nRows := by
  simp [Df.col, Df.nRows]

theorem backfill_columns (df : Df) : (backfill df).columns = df.columns := rfl

theorem backfill_nRows (df : Df) : (backfill df).nRows = df.nRows := by
  simp [backfill, Df.nRows]

theorem backfill_col {df : Df} {k : Nat} (hk : k < df.columns.length) :
    (backfill df).col k = backfillCol (df.col k) := by
  have hlen : (backfillCol (df.col k)).length = df.nRows := by
    rw [backfillCol_length, Df.col_length]
  calc (backfill df).col k
      = (List.range df.nRows).map (fun i => (backfillCol (df.col k)).getD i none) := by
        simp only [backfill, Df.col, List.map_map]
        refine List.map_congr_left ?_
        intro i _
        simp only [Function.comp]
        exact getD_map_range _ none hk
    _ = backfillCol (df.col k) := by
        rw [← hlen]; exact getD_range_map_self _ none

/-! ### C1: the table has `min(#starts, #ends)` rows -/

/-- C1: whenever `_text_to_df` produces a table, its number of rows
equals `min(len(start_index), len(end_index))`; in particular, for an
input whose `N` start markers pair 1:1 in order with its `N` end
markers the table has exactly `N` rows, one per usable block. -/
theorem c1_row_count (lines : List String) (df : Df)
    (h : _text_to_df lines = .ok df) :
    df.nRows = min (markerIdx startMarker lines).length (markerIdx endMarker lines).length := by
  unfold _text_to_df at h
  split at h
  · exact absurd h (by simp)
  · split at h
    · exact absurd h (by simp)
    · rename_i ks hks
      split at h
      · exact absurd h (by simp)
      · rename_i rows hrows
        cases h
        rw [backfill_nRows]
        show rows.length = _
        rw [mapExcept_ok_length hrows]
        simp [blocksOf, List.length_zip]

/-- C1 witness: a concrete log with two matched marker pairs yields a
two-row table. -/
theorem c1_row_count_witness :
    _text_to_df ["*** LogFrame Start ***", "k1: 1", "*** LogFrame End ***",
                 "*** LogFrame Start ***", "k1: 2", "*** LogFrame End ***"]
      = .ok ⟨["k1"], [[some "1"], [some "2"]]⟩ ∧
    Df.nRows ⟨["k1"], [[some "1"], [some "2"]]⟩ =
      min (markerIdx startMarker
            ["*** LogFrame Start ***", "k1: 1", "*** LogFrame End ***",
             "*** LogFrame Start ***", "k1: 2", "*** LogFrame End ***"]).length
          (markerIdx endMarker
            ["*** LogFrame Start ***", "k1: 1", "*** LogFrame End ***",
             "*** LogFrame Start ***", "k1: 2", "*** LogFrame End ***"]).length :=
  ⟨by decide,
   c1_row_count
     ["*** LogFrame Start ***", "k1: 1", "*** LogFrame End ***",
      "*** LogFrame Start ***", "k1: 2", "*** LogFrame End ***"]
     ⟨["k1"], [[some "1"], [some "2"]]⟩ (by decide)⟩

/-! ### C2: marker mismatch handling (corrected) -/

/-- C2 counterexample: an input with zero start markers and zero end
markers (so, vacuously, no first start marker precedes a first end
marker) does not continue with `min(#starts, #ends) = 0` blocks;
instead `start_index[0]` raises an `IndexError`. -/
theorem c2_counterexample :
    (markerIdx startMarker ["hello"]).head? = none ∧
    (markerIdx endMarker ["hello"]).head? = none ∧
    _text_to_df ["hello"] = .error PyErr.indexError := by
  exact ⟨by decide, by decide, by decide⟩

/-- C2 (amended): for every input whose start-marker count differs from
its end-marker count, or which has a first start marker and a first end
marker with the first start not preceding the first end, the marker
check emits the warning and raises no exception, and the usable-block
sequence has `min(#starts, #ends)` entries.  (The claim's further reach
to inputs with no markers of either kind fails: there the check raises
an `IndexError`, as the counterexample shows.) -/
theorem c2_marker_mismatch_amended (lines : List String)
    (h : (markerIdx startMarker lines).length ≠ (markerIdx endMarker lines).length ∨
         ∃ s e, (markerIdx startMarker lines).head? = some s ∧
                (markerIdx endMarker lines).head? = some e ∧ e ≤ s) :
    markerWarn (markerIdx startMarker lines) (markerIdx endMarker lines) = .ok true ∧
    (blocksOf lines).length =
      min (markerIdx startMarker lines).length (markerIdx endMarker lines).length := by
  constructor
  · rcases h with hne | ⟨s, e, hs, he, hle⟩
    · simp [markerWarn, hne]
    · by_cases hl : (markerIdx startMarker lines).length = (markerIdx endMarker lines).length
      · cases hstarts : markerIdx startMarker lines with
        | nil => rw [hstarts] at hs; exact absurd hs (by simp)
        | cons a ta =>
          cases hends : markerIdx endMarker lines with
          | nil => rw [hends] at he; exact absurd he (by simp)
          | cons b tb =>
            rw [hstarts] at hs; rw [hends] at he
            simp only [List.head?_cons, Option.some.injEq] at hs he
            subst hs; subst he
            rw [hstarts, hends] at hl
            simp [markerWarn, hl, hle]
      · simp [markerWarn, hl]
  · simp [blocksOf, List.length_zip]

/-- C2 witness: the spec's scenario with three start markers and two end
markers warns, raises nothing, and continues with two usable blocks. -/
theorem c2_marker_mismatch_amended_witness :
    markerWarn
        (markerIdx startMarker
          ["*** LogFrame Start ***", "*** LogFrame End ***", "*** LogFrame Start ***",
           "*** LogFrame End ***", "*** LogFrame Start ***"])
        (markerIdx endMarker
          ["*** LogFrame Start ***", "*** LogFrame End ***", "*** LogFrame Start ***",
           "*** LogFrame End ***", "*** LogFrame Start ***"]) = .ok true ∧
    (blocksOf
        ["*** LogFrame Start ***", "*** LogFrame End ***", "*** LogFrame Start ***",
         "*** LogFrame End ***", "*** LogFrame Start ***"]).length = 2 := by
  have h := c2_marker_mismatch_amended
    ["*** LogFrame Start ***", "*** LogFrame End ***", "*** LogFrame Start ***",
     "*** LogFrame End ***", "*** LogFrame Start ***"]
    (Or.inl (by decide))
  exact ⟨h.1, h.2.trans (by decide)⟩

/-! ### C3: row materialization -/

/-- Spec-side characterization ("if the same key appears more than once
within one block, the cell holds the value of the last occurrence"):
the left-stripped value of the last line of the block whose key equals
`key`, or `none` when no line of the block carries that key. -/
def specLastValue (key : String) : List String → Option String
  | [] => none
  | l :: rest =>
    match specLastValue key rest with
    | some v => some v
    | none =>
      match splitFirstColon l with
      | some (k, v) => if k = key then some (lstrip v) else none
      | none => none

theorem specLastValue_eq_none_iff (key : String) (blk : List String) :
    specLastValue key blk = none ↔ ∀ s ∈ blk, keyOf s ≠ some key := by
  induction blk with
  | nil => simp [specLastValue]
  | cons a t ih =>
    simp only [List.mem_cons, forall_eq_or_imp, ← ih]
    cases hlv : specLastValue key t with
    | some v => simp [specLastValue, hlv]
    | none =>
      cases hsp : splitFirstColon a with
      | none => simp [specLastValue, hlv, hsp, keyOf]
      | some p =>
        obtain ⟨ka, va⟩ := p
        by_cases hk : ka = key
        · simp [specLastValue, hlv, hsp, keyOf, hk]
        · simp [specLastValue, hlv, hsp, keyOf, hk]

theorem getD_map_const_none (l : List String) (k : Nat) :
    (l.map (fun _ => (none : Option String))).getD k none = none := by
  rw [List.getD_eq_getElem?_getD, List.getElem?_map]
  cases l[k]? <;> rfl

theorem getD_map_zip {α β γ : Type} (g : α × β → γ) (d : γ) (d1 : α) (d2 : β) :
    ∀ (l1 : List α) (l2 : List β) (k : Nat), k < l1.length → k < l2.length →
      ((l1.zip l2).map g).getD k d = g (l1.getD k d1, l2.getD k d2) := by
  intro l1
  induction l1 with
  | nil => intro l2 k h1 _; exact absurd h1 (by simp)
  | cons a t1 ih =>
    intro l2 k h1 h2
    cases l2 with
    | nil => exact absurd h2 (by simp)
    | cons b t2 =>
      cases k with
      | zero => rfl
      | succ m =>
        simp only [List.zip_cons_cons, List.map_cons, List.getD_cons_succ]
        exact ih t2 m (by simpa using h1) (by simpa using h2)

theorem materialize_go (headers : List String) :
    ∀ (blk : List String) (acc row : List (Option String)),
      acc.length = headers.length →
      foldExcept (applyLine headers) acc blk = .ok row →
      row.length = headers.length ∧
      ∀ k, (hk : k < headers.length) →
        row.getD k none = (specLastValue headers[k] blk).or (acc.getD k none) := by
  intro blk
  induction blk with
  | nil =>
    intro acc row hlen h
    simp only [foldExcept] at h
    cases h
    refine ⟨hlen, fun k hk => ?_⟩
    simp [specLastValue, Option.or]
  | cons a t ih =>
    intro acc row hlen h
    cases hsp : splitFirstColon a with
    | none => simp [foldExcept, applyLine, hsp] at h
    | some p =>
      obtain ⟨ka, va⟩ := p
      simp only [foldExcept, applyLine, hsp] at h
      have hlen' :
          ((headers.zip acc).map
            (fun p => if p.1 = ka then some (lstrip va) else p.2)).length
            = headers.length := by
        simp [List.length_zip, hlen]
      obtain ⟨hrl, hcell⟩ := ih _ row hlen' h
      refine ⟨hrl, fun k hk => ?_⟩
      rw [hcell k hk]
      cases hlv : specLastValue headers[k] t with
      | some v => simp [specLastValue, hlv, Option.or]
      | none =>
        have hknum : k < acc.length := hlen ▸ hk
        have hacc :
            ((headers.zip acc).map
              (fun p => if p.1 = ka then some (lstrip va) else p.2)).getD k none
              = if headers.getD k "" = ka then some (lstrip va) else acc.getD k none :=
          getD_map_zip _ none "" none headers acc k hk hknum
        rw [hacc, List.getD_eq_getElem headers "" hk]
        by_cases hke : ka = headers[k]
        · simp [specLastValue, hlv, hsp, Option.or, hke]
        · have hke' : ¬ headers[k] = ka := fun hh => hke hh.symm
          simp [specLastValue, hlv, hsp, Option.or, hke, hke']

/-- C3: when a block materializes successfully, the produced row has
exactly `len(headers)` cells in header order; the cell for column `k`
holds the left-stripped value of the last line of the block whose key
is `headers[k]` (so a duplicated key keeps its last occurrence), and it
is null exactly when the block has no key-value line for that key. -/
theorem c3_row_materializer (headers blk : List String) (row : List (Option String))
    (h : materializeRow headers blk = .ok row) :
    row.length = headers.length ∧
    ∀ k, (hk : k < headers.length) →
      row.getD k none = specLastValue headers[k] blk ∧
      (row.getD k none = none ↔ ∀ s ∈ blk, keyOf s ≠ some headers[k]) := by
  obtain ⟨h1, h2⟩ := materialize_go headers blk (headers.map (fun _ => none)) row (by simp) h
  refine ⟨h1, fun k hk => ?_⟩
  have hcell := h2 k hk
  rw [getD_map_const_none] at hcell
  have heq : row.getD k none = specLastValue headers[k] blk := by
    rw [hcell]; cases specLastValue headers[k] blk <;> rfl
  exact ⟨heq, by rw [heq]; exact specLastValue_eq_none_iff _ _⟩

/-- C3 witness: headers `[k1, k2]`, block `["k1: 1", "k1: 3"]`: the row
has two cells, the duplicated `k1` keeps its last value `3`, and the
`k2` cell is null. -/
theorem c3_row_materializer_witness :
    materializeRow ["k1", "k2"] ["k1: 1", "k1: 3"] = .ok [some "3", none] ∧
    ([some "3", none] : List (Option String)).length = (["k1", "k2"] : List String).length ∧
    ([some "3", none] : List (Option String)).getD 0 none
      = specLastValue "k1" ["k1: 1", "k1: 3"] ∧
    (([some "3", none] : List (Option String)).getD 1 none = none ↔
      ∀ s ∈ (["k1: 1", "k1: 3"] : List String), keyOf s ≠ some "k2") := by
  refine ⟨by decide, ?_, ?_, ?_⟩
  · exact (c3_row_materializer ["k1", "k2"] ["k1: 1", "k1: 3"] [some "3", none] (by decide)).1
  · exact ((c3_row_materializer ["k1", "k2"] ["k1: 1", "k1: 3"] [some "3", none]
      (by decide)).2 0 (by decide)).1
  · exact ((c3_row_materializer ["k1", "k2"] ["k1: 1", "k1: 3"] [some "3", none]
      (by decide)).2 1 (by decide)).2

/-! ### C4: header unification -/

/-- Spec-side characterization ("unique keys in first-seen order across
the full scan"): fold over the scanned keys, appending a key the first
time it is seen and dropping it afterwards. -/
def specDedup (l : List String) : List String :=
  l.foldl (fun acc k => if k ∈ acc then acc else acc ++ [k]) []

/-- Spec-side: every key (text before the first colon) of every line of
every usable block, in scan order. -/
def specAllKeys (blks : List (List String)) : List String :=
  blks.flatten.filterMap keyOf

theorem dedup_go :
    ∀ (l acc : List String),
      l.foldl (fun acc k => if k ∈ acc then acc else acc ++ [k]) acc
        = acc ++ dedupFirstAux acc l := by
  intro l
  induction l with
  | nil => intro acc; simp [dedupFirstAux]
  | cons x xs ih =>
    intro acc
    by_cases hx : x ∈ acc
    · simp only [List.foldl_cons, if_pos hx, dedupFirstAux, ih]
    · simp only [List.foldl_cons, if_neg hx, dedupFirstAux, ih, List.append_assoc,
        List.singleton_append]

theorem specDedup_eq_dedupFirst (l : List String) : specDedup l = dedupFirst l := by
  simpa [specDedup, dedupFirst] using dedup_go l []

theorem mem_dedupFirstAux :
    ∀ (l seen : List String) (y : String),
      y ∈ dedupFirstAux seen l ↔ y ∈ l ∧ y ∉ seen := by
  intro l
  induction l with
  | nil => intro seen y; simp [dedupFirstAux]
  | cons x xs ih =>
    intro seen y
    by_cases hx : x ∈ seen
    · rw [dedupFirstAux, if_pos hx, ih]
      constructor
      · rintro ⟨hy, hns⟩; exact ⟨List.mem_cons_of_mem _ hy, hns⟩
      · rintro ⟨hy, hns⟩
        rcases List.mem_cons.mp hy with rfl | hy'
        · exact absurd hx hns
        · exact ⟨hy', hns⟩
    · rw [dedupFirstAux, if_neg hx]
      rcases eq_or_ne y x with rfl | hyx
      · simp [ih, hx]
      · simp [List.mem_cons, hyx, ih, List.mem_append, List.mem_singleton]

theorem mem_dedupFirst (l : List String) (y : String) :
    y ∈ dedupFirst l ↔ y ∈ l := by
  simp [dedupFirst, mem_dedupFirstAux]

theorem mapExcept_parseKey_ok :
    ∀ {l : List String} {ks : List String},
      mapExcept parseKey l = .ok ks → ks = l.filterMap keyOf := by
  intro l
  induction l with
  | nil => intro ks h; simp only [mapExcept] at h; cases h; rfl
  | cons a t ih =>
    intro ks h
    cases hsp : splitFirstColon a with
    | none => simp [mapExcept, parseKey, hsp] at h
    | some p =>
      obtain ⟨k, v⟩ := p
      simp only [mapExcept, parseKey, hsp] at h
      cases ht : mapExcept parseKey t with
      | error e => rw [ht] at h; exact absurd h (by simp)
      | ok bs =>
        rw [ht] at h
        cases h
        simp [List.filterMap_cons, keyOf, hsp, ih ht]

theorem collectKeys_ok {blks : List (List String)} {ks : List String}
    (h : collectKeys blks = .ok ks) : ks = specAllKeys blks :=
  mapExcept_parseKey_ok h

/-- C4: whenever `_text_to_df` produces a table, its column list is the
key scan of all usable blocks deduplicated in first-seen order, and a
name is a column exactly when some line of some usable block carries it
as its key — so keys first introduced by later blocks do appear. -/
theorem c4_header_unifier (lines : List String) (df : Df)
    (h : _text_to_df lines = .ok df) :
    df.columns = specDedup (specAllKeys (blocksOf lines)) ∧
    ∀ c, c ∈ df.columns ↔ ∃ b ∈ blocksOf lines, ∃ s ∈ b, keyOf s = some c := by
  unfold _text_to_df at h
  split at h
  · exact absurd h (by simp)
  · split at h
    · exact absurd h (by simp)
    · rename_i ks hks
      split at h
      · exact absurd h (by simp)
      · cases h
        have hkeys : ks = specAllKeys (blocksOf lines) := collectKeys_ok hks
        constructor
        · show dedupFirst ks = _
          rw [hkeys, specDedup_eq_dedupFirst]
        · intro c
          show c ∈ dedupFirst ks ↔ _
          rw [mem_dedupFirst, hkeys]
          simp [specAllKeys, List.mem_filterMap, List.mem_flatten]

/-- C4 witness: a key first introduced by the second block appears in
the column list, after the first block's keys. -/
theorem c4_header_unifier_witness :
    _text_to_df ["*** LogFrame Start ***", "k1: 1", "*** LogFrame End ***",
                 "*** LogFrame Start ***", "k2: 2", "*** LogFrame End ***"]
      = .ok ⟨["k1", "k2"], [[some "1", some "2"], [some "1", some "2"]]⟩ ∧
    (Df.columns ⟨["k1", "k2"], [[some "1", some "2"], [some "1", some "2"]]⟩
      = specDedup (specAllKeys (blocksOf
          ["*** LogFrame Start ***", "k1: 1", "*** LogFrame End ***",
           "*** LogFrame Start ***", "k2: 2", "*** LogFrame End ***"]))) :=
  ⟨by decide,
   (c4_header_unifier
     ["*** LogFrame Start ***", "k1: 1", "*** LogFrame End ***",
      "*** LogFrame Start ***", "k2: 2", "*** LogFrame End ***"]
     ⟨["k1", "k2"], [[some "1", some "2"], [some "1", some "2"]]⟩ (by decide)).1⟩

/-! ### C5 and C6: the singleton backfill pass -/

/-- Spec-side ("the column has exactly one non-null value and that
value's row index is `i`"): the cell at row `i` holds `v` and every
other cell of the column is null. -/
def singletonAt (col : List (Option String)) (i : Nat) (v : String) : Prop :=
  col.getD i none = some v ∧ ∀ j, j < col.length → j ≠ i → col.getD j none = none

instance (col : List (Option String)) (i : Nat) (v : String) :
    Decidable (singletonAt col i v) := by
  unfold singletonAt; infer_instance

theorem nonNullIdx_eq_nil_iff :
    ∀ col : List (Option String),
      nonNullIdx col = [] ↔ ∀ j, j < col.length → col.getD j none = none := by
  intro col
  induction col with
  | nil => simp [nonNullIdx]
  | cons c rest ih =>
    cases c with
    | some w =>
      constructor
      · intro h; exact absurd h (by simp [nonNullIdx])
      · intro h; exact absurd (h 0 (by simp)) (by simp)
    | none =>
      simp only [nonNullIdx, List.map_eq_nil_iff, ih]
      constructor
      · intro h j hj
        cases j with
        | zero => rfl
        | succ m => exact h m (Nat.lt_of_succ_lt_succ hj)
      · intro h j hj
        exact h (j + 1) (Nat.succ_lt_succ hj)

theorem nonNullIdx_of_singletonAt :
    ∀ (col : List (Option String)) (i : Nat) (v : String),
      singletonAt col i v → nonNullIdx col = [(i, v)] := by
  intro col
  induction col with
  | nil => intro i v h; exact absurd h.1 (by simp)
  | cons c rest ih =>
    intro i v h
    obtain ⟨h1, h2⟩ := h
    cases c with
    | some w =>
      cases i with
      | zero =>
        have hv : w = v := by simpa using h1
        have hrest : nonNullIdx rest = [] := by
          rw [nonNullIdx_eq_nil_iff]
          intro j hj
          exact h2 (j + 1) (Nat.succ_lt_succ hj) (by omega)
        simp [nonNullIdx, hrest, hv]
      | succ m =>
        exact absurd (h2 0 (by simp) (by omega)) (by simp)
    | none =>
      cases i with
      | zero => exact absurd h1 (by simp)
      | succ m =>
        have hrest : singletonAt rest m v := by
          refine ⟨h1, ?_⟩
          intro j hj hjm
          exact h2 (j + 1) (Nat.succ_lt_succ hj) (by omega)
        simp [nonNullIdx, ih m v hrest]

theorem singletonAt_of_nonNullIdx :
    ∀ (col : List (Option String)) (i : Nat) (v : String),
      nonNullIdx col = [(i, v)] → singletonAt col i v := by
  intro col
  induction col with
  | nil => intro i v h; simp [nonNullIdx] at h
  | cons c rest ih =>
    intro i v h
    cases c with
    | some w =>
      simp only [nonNullIdx] at h
      injection h with h1 h2
      injection h1 with hi hv
      subst hi; subst hv
      have hrest : nonNullIdx rest = [] := by
        cases hnn : nonNullIdx rest with
        | nil => rfl
        | cons p ps => rw [hnn] at h2; exact absurd h2 (by simp)
      refine ⟨by simp, ?_⟩
      intro j hj hj0
      cases j with
      | zero => exact absurd rfl hj0
      | succ m =>
        exact (nonNullIdx_eq_nil_iff rest).mp hrest m (Nat.lt_of_succ_lt_succ hj)
    | none =>
      simp only [nonNullIdx] at h
      cases hnn : nonNullIdx rest with
      | nil => rw [hnn] at h; exact absurd h (by simp)
      | cons p ps =>
        rw [hnn] at h
        simp only [List.map_cons] at h
        injection h with h1 h2
        have hps : ps = [] := by
          cases hps' : ps with
          | nil => rfl
          | cons q qs => rw [hps'] at h2; exact absurd h2 (by simp)
        obtain ⟨p1, p2⟩ := p
        injection h1 with hi hv
        subst hv
        have hrest : singletonAt rest p1 p2 := by
          refine ih p1 p2 ?_
          rw [hnn, hps]
        cases hi
        refine ⟨hrest.1, ?_⟩
        intro j hj hji
        cases j with
        | zero => rfl
        | succ m => exact hrest.2 m (Nat.lt_of_succ_lt_succ hj) (by omega)

theorem nonNullIdx_map_const (v : String) :
    ∀ col : List (Option String),
      nonNullIdx (col.map (fun _ => some v))
        = (List.range col.length).map (fun j => (j, v)) := by
  intro col
  induction col with
  | nil => rfl
  | cons c rest ih =>
    simp only [List.map_cons, nonNullIdx, ih, List.length_cons, List.range_succ_eq_map,
      List.map_map]
    rfl

theorem backfillCol_of_two_le (col : List (Option String))
    (h : 2 ≤ (nonNullIdx col).length) : backfillCol col = col := by
  cases hnn : nonNullIdx col with
  | nil => simp [backfillCol, hnn]
  | cons p ps =>
    cases ps with
    | nil => rw [hnn] at h; exact absurd h (by simp)
    | cons q qs => simp [backfillCol, hnn]

theorem backfillCol_idem (col : List (Option String)) :
    backfillCol (backfillCol col) = backfillCol col := by
  cases hnn : nonNullIdx col with
  | nil =>
    have hbc : backfillCol col = col := by simp [backfillCol, hnn]
    rw [hbc, hbc]
  | cons p ps =>
    cases ps with
    | cons q qs =>
      have hbc : backfillCol col = col := by simp [backfillCol, hnn]
      rw [hbc, hbc]
    | nil =>
      obtain ⟨i, v⟩ := p
      by_cases hcond : i = 0 ∨ i + 1 = col.length ∨ i + 2 = col.length
      · have hbc : backfillCol col = col.map (fun _ => some v) := by
          simp [backfillCol, hnn, hcond]
        rw [hbc]
        cases col with
        | nil => simp [nonNullIdx] at hnn
        | cons c rest =>
          cases rest with
          | nil =>
            show backfillCol [some v] = [some v]
            rfl
          | cons d ds =>
            apply backfillCol_of_two_le
            rw [nonNullIdx_map_const]
            simp
      · have hbc : backfillCol col = col := by simp [backfillCol, hnn, hcond]
        rw [hbc, hbc]

theorem Df.ext' {a b : Df} (h1 : a.columns = b.columns) (h2 : a.rows = b.rows) :
    a = b := by
  cases a; cases b; cases h1; cases h2; rfl

/-- C5: for every table and in-range column, if the column holds exactly
one non-null value `v` at row 0, the last row, or the second-to-last
row, the backfill pass makes every cell of that column `v`; in every
other case (no non-null cell, two or more non-null cells, or a single
non-null cell elsewhere) the column is unchanged. -/
theorem c5_singleton_backfill (df : Df) (k : Nat) (hk : k < df.columns.length) :
    (∀ i v, singletonAt (df.col k) i v →
       (i = 0 ∨ i + 1 = df.nRows ∨ i + 2 = df.nRows) →
       ∀ j, j < df.nRows → ((backfill df).col k).getD j none = some v) ∧
    ((¬ ∃ i v, singletonAt (df.col k) i v ∧
        (i = 0 ∨ i + 1 = df.nRows ∨ i + 2 = df.nRows)) →
      (backfill df).col k = df.col k) := by
  have hcl : (df.col k).length = df.nRows := Df.col_length df k
  constructor
  · intro i v hs hcond j hj
    rw [backfill_col hk]
    have hnn := nonNullIdx_of_singletonAt _ i v hs
    have hcond' : i = 0 ∨ i + 1 = (df.col k).length ∨ i + 2 = (df.col k).length := by
      rw [hcl]; exact hcond
    have hbc : backfillCol (df.col k) = (df.col k).map (fun _ => some v) := by
      simp [backfillCol, hnn, hcond']
    rw [hbc]
    have hjl : j < (df.col k).length := by rw [hcl]; exact hj
    rw [List.getD_eq_getElem?_getD, List.getElem?_map, List.getElem?_eq_getElem hjl]
    rfl
  · intro hno
    rw [backfill_col hk]
    cases hnn : nonNullIdx (df.col k) with
    | nil => simp [backfillCol, hnn]
    | cons p ps =>
      cases ps with
      | cons q qs => simp [backfillCol, hnn]
      | nil =>
        obtain ⟨i, v⟩ := p
        have hs := singletonAt_of_nonNullIdx _ i v hnn
        have hcond : ¬ (i = 0 ∨ i + 1 = (df.col k).length ∨ i + 2 = (df.col k).length) := by
          rw [hcl]; exact fun hc => hno ⟨i, v, hs, hc⟩
        simp [backfillCol, hnn, hcond]

/-- C5 witness: a 5-row column with its only value at row 0 is filled
everywhere (checked at row 3), and a 5-row column with its only value at
row 2 (neither first, last, nor second-to-last) is left unchanged. -/
theorem c5_singleton_backfill_witness :
    ((backfill ⟨["meta"], [[some "v"], [none], [none], [none], [none]]⟩).col 0).getD 3 none
      = some "v" ∧
    (backfill ⟨["meta2"], [[none], [none], [some "w"], [none], [none]]⟩).col 0
      = Df.col ⟨["meta2"], [[none], [none], [some "w"], [none], [none]]⟩ 0 := by
  constructor
  · exact (c5_singleton_backfill ⟨["meta"], [[some "v"], [none], [none], [none], [none]]⟩
      0 (by decide)).1 0 "v" (by decide) (by decide) 3 (by decide)
  · refine (c5_singleton_backfill ⟨["meta2"], [[none], [none], [some "w"], [none], [none]]⟩
      0 (by decide)).2 ?_
    rintro ⟨i, v, hs, hcond⟩
    have h := nonNullIdx_of_singletonAt _ i v hs
    have h2 : ([(2, "w")] : List (Nat × String)) = [(i, v)] := by
      rw [← h]; rfl
    injection h2 with hp _
    injection hp with hi hv
    subst hi; subst hv
    exact absurd hcond (by decide)

/-- C6: the singleton-backfill pass is idempotent: applying it twice to
any table yields the same table as applying it once. -/
theorem c6_backfill_idempotent (df : Df) : backfill (backfill df) = backfill df := by
  refine Df.ext' rfl ?_
  show (List.range (backfill df).nRows).map
      (fun i => (List.range (backfill df).columns.length).map
        (fun k => (backfillCol ((backfill df).col k)).getD i none))
    = (List.range df.nRows).map
      (fun i => (List.range df.columns.length).map
        (fun k => (backfillCol (df.col k)).getD i none))
  rw [backfill_nRows, backfill_columns]
  refine List.map_congr_left ?_
  intro i _
  refine List.map_congr_left ?_
  intro k hkmem
  rw [backfill_col (List.mem_range.mp hkmem), backfillCol_idem]

/-! ### Column transformer: rename, merge, null filter, select -/

/-- Position of the first column with the given name (pandas label
lookup; column labels produced by the parser are unique). -/
def idxOf? (name : String) : List String → Option Nat
  | [] => none
  | c :: cs => if c = name then some 0 else (idxOf? name cs).map (· + 1)

/-- The cell of a row under a column name, given the table's columns. -/
def cellIn (cols : List String) (r : List (Option String)) (name : String) :
    Option String :=
  match idxOf? name cols with
  | some k => r.getD k none
  | none => none

/-- `df.loc[i, name]`: the cell of row `i` in the named column. -/
def Df.cellAt (df : Df) (name : String) (i : Nat) : Option String :=
  cellIn df.columns (df.rows.getD i []) name

/-- `df[name]` for a single label: the named column, or a `KeyError`. -/
def Df.getColByName (df : Df) (name : String) : Except PyErr (List (Option String)) :=
  match idxOf? name df.columns with
  | some k => .ok (df.col k)
  | none => .error .keyError

/-- `df[name] = vals`: overwrite the named column in place if it exists,
else append it as a new last column. -/
def Df.setCol (df : Df) (name : String) (vals : List (Option String)) : Df :=
  match idxOf? name df.columns with
  | some k => ⟨df.columns, (df.rows.zip vals).map (fun p => p.1.set k p.2)⟩
  | none => ⟨df.columns ++ [name], (df.rows.zip vals).map (fun p => p.1 ++ [p.2])⟩

/-- Row `i` of `df[srcs].fillna('').sum(axis=1)`: concatenate the
selected columns' cells left to right, reading a null cell as `""`. -/
def mergeRowVal (cols : List (List (Option String))) (i : Nat) : String :=
  cols.foldl (fun acc c => acc ++ ((c.getD i none).getD "")) ""

/-- One iteration of the merge loop (line 174):
`df[col] = df[merge_cols[col]].fillna('').sum(axis=1)`.  (For a
nonempty source list over string columns the pandas row sum is string
concatenation; the merge theorem below is accordingly stated for
nonempty source lists.) -/
def mergeOne (df : Df) (dst : String) (srcs : List String) : Except PyErr Df :=
  match mapExcept df.getColByName srcs with
  | .error e => .error e
  | .ok cs =>
      .ok (df.setCol dst ((List.range df.nRows).map (fun i => some (mergeRowVal cs i))))

/-- The merge step of `text_to_rcsv` (lines 172-174):
`merge_cols = param_dict.get('merge_cols')` followed by
`for col in list(merge_cols.keys())`.  When the parameter file has no
`merge_cols` entry, `merge_cols` is `None` and `.keys()` raises an
`AttributeError`. -/
def mergeStepTop (df : Df) (mergeCols : Option (List (String × List String))) :
    Except PyErr Df :=
  match mergeCols with
  | none => .error .attributeError
  | some mc => foldExcept (fun d p => mergeOne d p.1 p.2) df mc

/-- `df.rename(columns=repl)`: rename the columns present in the
mapping, leaving the rest alone. -/
def Df.rename (df : Df) (repl : List (String × String)) : Df :=
  ⟨df.columns.map (fun c => (repl.lookup c).getD c), df.rows⟩

/-- The rename step of `text_to_rcsv` (lines 166-169): skipped when
`replace_dict` is absent or empty (falsy); otherwise
`replacements = replace_dict.get(edat_suffix)` and
`df.rename(columns=replacements)` — which raises a `TypeError` when the
suffix has no entry, because `rename` is then called with no mapper. -/
def renameStep (df : Df)
    (replaceDict : Option (List (String × List (String × String))))
    (suffix : String) : Except PyErr Df :=
  match replaceDict with
  | none => .ok df
  | some [] => .ok df
  | some rd =>
      match rd.lookup suffix with
      | some repl => .ok (df.rename repl)
      | none => .error .typeError

/-- The null filter of `text_to_rcsv` (lines 177-178):
`df.dropna(subset=param_dict.get('null_cols'), how='all')` when
`rem_nulls` is truthy: drop the rows whose cells are all null across
the subset columns (all columns when `null_cols` is absent). -/
def nullFilterStep (df : Df) (remNulls : Bool) (nullCols : Option (List String)) :
    Except PyErr Df :=
  if remNulls then
    match nullCols with
    | some cs =>
        if cs.all (fun c => (idxOf? c df.columns).isSome) then
          .ok ⟨df.columns,
               df.rows.filter
                 (fun r => !(cs.all (fun c => (cellIn df.columns r c).isNone)))⟩
        else .error .keyError
    | none =>
        .ok ⟨df.columns,
             df.rows.filter
               (fun r => !(df.columns.all (fun c => (cellIn df.columns r c).isNone)))⟩
  else .ok df

/-- `df = df[header_list]` (line 182 / line 85): reduce the table to the
requested columns in the requested order, raising a `KeyError` when any
requested column is absent. -/
def selectStep (df : Df) (headers : List String) : Except PyErr Df :=
  if headers.all (fun c => (idxOf? c df.columns).isSome) then
    .ok ⟨headers, df.rows.map (fun r => headers.map (fun c => cellIn df.columns r c))⟩
  else .error .keyError

/-- The task-specific parameters read from the JSON parameter file; an
absent key is `none` (for `rem_nulls` the code reads a default of
`False` at line 177, so it is modelled as the read value directly). -/
structure Params where
  headers : List String
  remNulls : Bool
  nullCols : Option (List String)
  replaceDict : Option (List (String × List (String × String)))
  mergeCols : Option (List (String × List String))

/-- The pipeline of `text_to_rcsv` up to (not including) the column
selection: parse, rename, merge, null-filter. -/
def preSelect (lines : List String) (p : Params) (suffix : String) : Except PyErr Df :=
  match _text_to_df lines with
  | .error e => .error e
  | .ok df0 =>
    match renameStep df0 p.replaceDict suffix with
    | .error e => .error e
    | .ok df1 =>
      match mergeStepTop df1 p.mergeCols with
      | .error e => .error e
      | .ok df2 => nullFilterStep df2 p.remNulls p.nullCols

/-- `text_to_rcsv` (lines 159-186): the returned table is exactly what
`df.to_csv` then writes; an error aborts the run before the write, so
no output file is produced. -/
def text_to_rcsv (lines : List String) (p : Params) (suffix : String) :
    Except PyErr Df :=
  match preSelect lines p suffix with
  | .error e => .error e
  | .ok df3 => selectStep df3 p.headers

/-- `df.dropna(axis=0, how='all')`: drop the rows that are null in every
column. -/
def dropAllNullRows (df : Df) : Df :=
  ⟨df.columns,
   df.rows.filter (fun r => !(df.columns.all (fun c => (cellIn df.columns r c).isNone)))⟩

/-- The core of `etext_to_rcsv` (lines 84-93) after the external
`pd.read_csv`: select the configured headers, then optionally drop
all-null rows; the returned table is what `df.to_csv` writes, and an
error aborts before the write. -/
def etext_to_rcsv (df : Df) (headers : List String) (remNulls : Bool) :
    Except PyErr Df :=
  match selectStep df headers with
  | .error e => .error e
  | .ok df1 => .ok (if remNulls then dropAllNullRows df1 else df1)

/-- Spec-side characterization of the merge ("left-to-right string
concatenation of that row's source-column values with null treated as
the empty string"). -/
def specRowConcat (df : Df) (srcs : List String) (i : Nat) : String :=
  srcs.foldl (fun acc s => acc ++ ((df.cellAt s i).getD "")) ""

/-! ### Lemmas about label lookup and cell access -/

theorem idxOf?_lt_length (name : String) :
    ∀ {cols : List String} {k : Nat}, idxOf? name cols = some k → k < cols.length := by
  intro cols
  induction cols with
  | nil => intro k h; simp [idxOf?] at h
  | cons c cs ih =>
    intro k h
    by_cases hc : c = name
    · rw [idxOf?, if_pos hc] at h
      cases h
      simp
    · rw [idxOf?, if_neg hc] at h
      obtain ⟨m, hm, rfl⟩ := Option.map_eq_some'.mp h
      exact Nat.succ_lt_succ (ih hm)

theorem idxOf?_eq_none_iff (name : String) :
    ∀ cols : List String, idxOf? name cols = none ↔ name ∉ cols := by
  intro cols
  induction cols with
  | nil => simp [idxOf?]
  | cons c cs ih =>
    by_cases hc : c = name
    · simp [idxOf?, hc]
    · simp [idxOf?, hc, ih, Ne.symm hc]

theorem idxOf?_append_self (name : String) :
    ∀ cols : List String, idxOf? name cols = none →
      idxOf? name (cols ++ [name]) = some cols.length := by
  intro cols
  induction cols with
  | nil => intro _; simp [idxOf?]
  | cons c cs ih =>
    intro h
    by_cases hc : c = name
    · rw [idxOf?, if_pos hc] at h; exact absurd h (by simp)
    · rw [idxOf?, if_neg hc] at h
      have hcs : idxOf? name cs = none := by
        cases hcs' : idxOf? name cs with
        | none => rfl
        | some m => rw [hcs'] at h; exact absurd h (by simp)
      rw [List.cons_append, idxOf?, if_neg hc, ih hcs]
      rfl

theorem getD_col (df : Df) (k i : Nat) :
    (df.col k).getD i none = (df.rows.getD i []).getD k none := by
  cases h : df.rows[i]? with
  | none =>
    have h2 : df.rows.getD i [] = [] := by
      rw [List.getD_eq_getElem?_getD, h]; rfl
    have h3 : (df.col k).getD i none = none := by
      rw [Df.col, List.getD_eq_getElem?_getD, List.getElem?_map, h]; rfl
    rw [h2, h3]; rfl
  | some r =>
    have h2 : df.rows.getD i [] = r := by
      rw [List.getD_eq_getElem?_getD, h]; rfl
    have h3 : (df.col k).getD i none = r.getD k none := by
      rw [Df.col, List.getD_eq_getElem?_getD, List.getElem?_map, h]; rfl
    rw [h2, h3]

theorem getD_set_self {r : List (Option String)} {k : Nat} (hk : k < r.length)
    (x : Option String) : (r.set k x).getD k none = x := by
  rw [List.getD_eq_getElem?_getD, List.getElem?_set_self hk]
  rfl

theorem getD_append_self (r : List (Option String)) (x : Option String) :
    (r ++ [x]).getD r.length none = x := by
  rw [List.getD_eq_getElem?_getD, List.getElem?_append_right (Nat.le_refl _)]
  simp

theorem getD_mem {l : List (List (Option String))} {i : Nat} (hi : i < l.length) :
    l.getD i [] ∈ l := by
  rw [List.getD_eq_getElem l [] hi]
  exact List.getElem_mem hi

/-! ### C7: the merge concatenates source columns -/

theorem mergeRow_foldl_eq (df : Df) :
    ∀ (srcs : List String) (cs : List (List (Option String))),
      mapExcept df.getColByName srcs = .ok cs →
      ∀ (i : Nat) (acc : String),
        cs.foldl (fun a c => a ++ ((c.getD i none).getD "")) acc
          = srcs.foldl (fun a s => a ++ ((df.cellAt s i).getD "")) acc := by
  intro srcs
  induction srcs with
  | nil =>
    intro cs h i acc
    simp only [mapExcept] at h
    cases h
    rfl
  | cons s rest ih =>
    intro cs h i acc
    cases hgc : df.getColByName s with
    | error e => simp [mapExcept, hgc] at h
    | ok c0 =>
      simp only [mapExcept, hgc] at h
      cases hrest : mapExcept df.getColByName rest with
      | error e => rw [hrest] at h; exact absurd h (by simp)
      | ok cs' =>
        rw [hrest] at h
        cases h
        simp only [List.foldl_cons]
        rw [ih cs' hrest]
        have hcell : c0.getD i none = df.cellAt s i := by
          unfold Df.getColByName at hgc
          cases hidx : idxOf? s df.columns with
          | none => rw [hidx] at hgc; exact absurd hgc (by simp)
          | some k =>
            rw [hidx] at hgc
            cases hgc
            rw [getD_col, Df.cellAt, cellIn, hidx]
        rw [hcell]

/-- C7: for a merge of destination `dst` from a nonempty ordered list of
source columns, over a rectangular table, every row's destination cell
becomes the left-to-right concatenation of that row's source cells with
null read as the empty string. -/
theorem c7_merge_concat (df : Df) (dst : String) (srcs : List String) (df' : Df)
    (hrect : ∀ r ∈ df.rows, r.length = df.columns.length)
    (_hne : srcs ≠ [])
    (hok : mergeOne df dst srcs = .ok df') :
    ∀ i, i < df.nRows → df'.cellAt dst i = some (specRowConcat df srcs i) := by
  intro i hi
  unfold mergeOne at hok
  cases hcs : mapExcept df.getColByName srcs with
  | error e => rw [hcs] at hok; exact absurd hok (by simp)
  | ok cs =>
    rw [hcs] at hok
    cases hok
    have hvali :
        ((List.range df.nRows).map (fun j => some (mergeRowVal cs j))).getD i none
          = some (mergeRowVal cs i) := getD_map_range _ none hi
    have hrlen : i < df.rows.length := hi
    have hvlen : i < ((List.range df.nRows).map (fun j => some (mergeRowVal cs j))).length := by
      simpa using hi
    have hrowlen : (df.rows.getD i []).length = df.columns.length :=
      hrect _ (getD_mem hrlen)
    have hconcat : mergeRowVal cs i = specRowConcat df srcs i :=
      mergeRow_foldl_eq df srcs cs hcs i ""
    unfold Df.setCol
    cases hidx : idxOf? dst df.columns with
    | some k =>
      have hk := idxOf?_lt_length dst hidx
      have hrows' :
          ((df.rows.zip ((List.range df.nRows).map (fun j => some (mergeRowVal cs j)))).map
            (fun p => p.1.set k p.2)).getD i []
            = (df.rows.getD i []).set k
                (((List.range df.nRows).map (fun j => some (mergeRowVal cs j))).getD i none) :=
        getD_map_zip _ [] [] none df.rows _ i hrlen hvlen
      show cellIn df.columns
          (((df.rows.zip ((List.range df.nRows).map (fun j => some (mergeRowVal cs j)))).map
            (fun p => p.1.set k p.2)).getD i []) dst = _
      rw [hrows', hvali]
      simp only [cellIn, hidx]
      rw [getD_set_self (by rw [hrowlen]; exact hk), hconcat]
    | none =>
      have hidx2 := idxOf?_append_self dst df.columns hidx
      have hrows' :
          ((df.rows.zip ((List.range df.nRows).map (fun j => some (mergeRowVal cs j)))).map
            (fun p => p.1 ++ [p.2])).getD i []
            = (df.rows.getD i [])
                ++ [((List.range df.nRows).map (fun j => some (mergeRowVal cs j))).getD i none] :=
        getD_map_zip _ [] [] none df.rows _ i hrlen hvlen
      show cellIn (df.columns ++ [dst])
          (((df.rows.zip ((List.range df.nRows).map (fun j => some (mergeRowVal cs j)))).map
            (fun p => p.1 ++ [p.2])).getD i []) dst = _
      rw [hrows', hvali]
      simp only [cellIn, hidx2]
      rw [← hrowlen, getD_append_self, hconcat]

/-- C7 witness: sources `["A", "B"]` with row values `("x", null)` merge
into the new column `AB` with value `"x"`. -/
theorem c7_merge_concat_witness :
    mergeOne ⟨["A", "B"], [[some "x", none]]⟩ "AB" ["A", "B"]
      = .ok ⟨["A", "B", "AB"], [[some "x", none, some "x"]]⟩ ∧
    Df.cellAt ⟨["A", "B", "AB"], [[some "x", none, some "x"]]⟩ "AB" 0
      = some (specRowConcat ⟨["A", "B"], [[some "x", none]]⟩ ["A", "B"] 0) ∧
    specRowConcat ⟨["A", "B"], [[some "x", none]]⟩ ["A", "B"] 0 = "x" := by
  refine ⟨by decide, ?_, by decide⟩
  exact c7_merge_concat ⟨["A", "B"], [[some "x", none]]⟩ "AB" ["A", "B"]
    ⟨["A", "B", "AB"], [[some "x", none, some "x"]]⟩
    (by decide) (by decide) (by decide) 0 (by decide)

/-! ### C8: a missing configured header aborts before any write -/

theorem selectStep_error {df : Df} {hs : List String}
    (h : ∃ c ∈ hs, c ∉ df.columns) : selectStep df hs = .error PyErr.keyError := by
  obtain ⟨c, hc, hnc⟩ := h
  have hall : hs.all (fun c => (idxOf? c df.columns).isSome) = false := by
    rw [List.all_eq_false]
    refine ⟨c, hc, ?_⟩
    rw [(idxOf?_eq_none_iff c df.columns).mpr hnc]
    simp
  simp [selectStep, hall]

/-- C8: in both conversion entry points, if the configured header list
names a column absent from the table at selection time, the run fails
with the missing-column `KeyError`; since the modelled pipelines only
return a table to be written on success, no output is written. -/
theorem c8_missing_column (lines : List String) (p : Params) (suffix : String)
    (df3 : Df) (edf : Df) (eheaders : List String) (ern : Bool) :
    ((preSelect lines p suffix = .ok df3) →
      (∃ c ∈ p.headers, c ∉ df3.columns) →
      text_to_rcsv lines p suffix = .error PyErr.keyError) ∧
    ((∃ c ∈ eheaders, c ∉ edf.columns) →
      etext_to_rcsv edf eheaders ern = .error PyErr.keyError) := by
  constructor
  · intro hpre hex
    unfold text_to_rcsv
    rw [hpre]
    exact selectStep_error hex
  · intro hex
    unfold etext_to_rcsv
    rw [selectStep_error hex]

/-- C8 witness: a parameter file requesting the absent column `missing`
makes `text_to_rcsv` fail with the missing-column error after a
successful pre-selection pipeline, and requesting `b` from a table with
only column `a` makes `etext_to_rcsv` fail likewise. -/
theorem c8_missing_column_witness :
    preSelect ["*** LogFrame Start ***", "a: 1", "*** LogFrame End ***"]
        ⟨["missing"], false, none, none, some []⟩ "" = .ok ⟨["a"], [[some "1"]]⟩ ∧
    text_to_rcsv ["*** LogFrame Start ***", "a: 1", "*** LogFrame End ***"]
        ⟨["missing"], false, none, none, some []⟩ "" = .error PyErr.keyError ∧
    etext_to_rcsv ⟨["a"], [[some "1"]]⟩ ["b"] false = .error PyErr.keyError := by
  refine ⟨by decide, ?_, ?_⟩
  · exact (c8_missing_column ["*** LogFrame Start ***", "a: 1", "*** LogFrame End ***"]
      ⟨["missing"], false, none, none, some []⟩ "" ⟨["a"], [[some "1"]]⟩
      ⟨["a"], [[some "1"]]⟩ ["b"] false).1 (by decide) ⟨"missing", by decide, by decide⟩
  · exact (c8_missing_column ["*** LogFrame Start ***", "a: 1", "*** LogFrame End ***"]
      ⟨["missing"], false, none, none, some []⟩ "" ⟨["a"], [[some "1"]]⟩
      ⟨["a"], [[some "1"]]⟩ ["b"] false).2 ⟨"b", by decide, by decide⟩

/-! ### C9: toggling of the rename and merge sub-operations (corrected) -/

/-- C9 counterexample: with no `merge_cols` entry configured at all, the
merge step raises an `AttributeError` rather than leaving the table
unchanged; and with a nonempty rename table that lacks an entry for the
discriminator `.edat2`, the rename step raises a `TypeError` rather
than being a no-op. -/
theorem c9_counterexample :
    mergeStepTop ⟨["A"], [[some "x"]]⟩ none = .error PyErr.attributeError ∧
    renameStep ⟨["A"], [[some "x"]]⟩ (some [(".edat", [("A", "B")])]) ".edat2"
      = .error PyErr.typeError :=
  ⟨by decide, by decide⟩

/-- C9 (amended): the rename step is a no-op without raising when the
rename table is absent or empty, but raises a `TypeError` when a
nonempty rename table has no entry for the discriminator; the merge
step is a no-op without raising when `merge_cols` is configured as an
empty mapping, but raises an `AttributeError` when `merge_cols` is
absent entirely. -/
theorem c9_toggle_amended (df : Df) (suffix : String)
    (x : String × List (String × String)) (xs : List (String × List (String × String)))
    (h : (x :: xs).lookup suffix = none) :
    renameStep df none suffix = .ok df ∧
    renameStep df (some []) suffix = .ok df ∧
    renameStep df (some (x :: xs)) suffix = .error PyErr.typeError ∧
    mergeStepTop df (some []) = .ok df ∧
    mergeStepTop df none = .error PyErr.attributeError := by
  refine ⟨rfl, rfl, ?_, rfl, rfl⟩
  simp [renameStep, h]

/-- C9 witness: the amended behaviour at a concrete table, rename table
`{".edat": {"A": "B"}}` and discriminator `.edat2`. -/
theorem c9_toggle_amended_witness :
    renameStep ⟨["A"], [[some "x"]]⟩ none ".edat2" = .ok ⟨["A"], [[some "x"]]⟩ ∧
    renameStep ⟨["A"], [[some "x"]]⟩ (some []) ".edat2" = .ok ⟨["A"], [[some "x"]]⟩ ∧
    renameStep ⟨["A"], [[some "x"]]⟩ (some [(".edat", [("A", "B")])]) ".edat2"
      = .error PyErr.typeError ∧
    mergeStepTop ⟨["A"], [[some "x"]]⟩ (some []) = .ok ⟨["A"], [[some "x"]]⟩ ∧
    mergeStepTop ⟨["A"], [[some "x"]]⟩ none = .error PyErr.attributeError :=
  c9_toggle_amended ⟨["A"], [[some "x"]]⟩ ".edat2" (".edat", [("A", "B")]) [] (by decide)

/-! ### C10: a colon-free line inside a usable block raises -/

theorem markerWarn_ok_of_ne_nil {starts ends : List Nat}
    (h1 : starts ≠ []) (h2 : ends ≠ []) : ∃ w, markerWarn starts ends = .ok w := by
  by_cases h : starts.length = ends.length
  · cases starts with
    | nil => exact absurd rfl h1
    | cons s ts =>
      cases ends with
      | nil => exact absurd rfl h2
      | cons e te => exact ⟨decide (e ≤ s), by simp [markerWarn, h]⟩
  · exact ⟨true, by simp [markerWarn, h]⟩

theorem mapExcept_parseKey_error :
    ∀ l : List String, (∃ s ∈ l, splitFirstColon s = none) →
      mapExcept parseKey l = .error PyErr.valueError := by
  intro l
  induction l with
  | nil => rintro ⟨s, hs, _⟩; simp at hs
  | cons a t ih =>
    rintro ⟨s, hs, hsp⟩
    cases hspa : splitFirstColon a with
    | none => simp [mapExcept, parseKey, hspa]
    | some p =>
      have hst : s ∈ t := by
        rcases List.mem_cons.mp hs with rfl | hmem
        · rw [hspa] at hsp; exact absurd hsp (by simp)
        · exact hmem
      obtain ⟨k, v⟩ := p
      simp [mapExcept, parseKey, hspa, ih ⟨s, hst, hsp⟩]

theorem collectKeys_error {blks : List (List String)}
    (h : ∃ b ∈ blks, ∃ s ∈ b, splitFirstColon s = none) :
    collectKeys blks = .error PyErr.valueError := by
  obtain ⟨b, hb, s, hs, hsp⟩ := h
  exact mapExcept_parseKey_error _ ⟨s, List.mem_flatten.mpr ⟨b, hb, hs⟩, hsp⟩

/-- C10: if any line strictly inside a usable block has no colon (for
example a blank line), `_text_to_df` raises the `ValueError` from
`str.index` instead of skipping the line or materializing a null — so
the parser is total only when every block line contains a colon. -/
theorem c10_colon_precondition (lines : List String)
    (h : ∃ b ∈ blocksOf lines, ∃ s ∈ b, splitFirstColon s = none) :
    _text_to_df lines = .error PyErr.valueError := by
  have hne : blocksOf lines ≠ [] := by
    obtain ⟨b, hb, _⟩ := h
    exact List.ne_nil_of_mem hb
  have hs : markerIdx startMarker lines ≠ [] := by
    intro hnil
    exact hne (by simp [blocksOf, hnil])
  have he : markerIdx endMarker lines ≠ [] := by
    intro hnil
    exact hne (by simp [blocksOf, hnil, List.zip_nil_right])
  obtain ⟨w, hw⟩ := markerWarn_ok_of_ne_nil hs he
  unfold _text_to_df
  rw [hw, collectKeys_error h]

/-- C10 witness: a block containing one blank line makes the parser
raise the `ValueError`. -/
theorem c10_colon_precondition_witness :
    (∃ b ∈ blocksOf ["*** LogFrame Start ***", "", "*** LogFrame End ***"],
       ∃ s ∈ b, splitFirstColon s = none) ∧
    _text_to_df ["*** LogFrame Start ***", "", "*** LogFrame End ***"]
      = .error PyErr.valueError :=
  ⟨by decide,
   c10_colon_precondition ["*** LogFrame Start ***", "", "*** LogFrame End ***"] (by decide)⟩

end ConvertEprime
